import Mathlib

/-!
Formal model of the bahlilfication pixel-rearrangement pipeline.

The batch pipeline (`src/lib/pixel-rearrangement.ts`) is embedded as pure
functions over decoded raw byte buffers, modelled as functions `Nat → Nat`
from byte index to channel value.  JavaScript floating-point arithmetic on
brightness values is modelled by exact rational arithmetic (`ℚ`); the
particle animation (`src/components/DrawingCanvas.tsx`), which involves a
Euclidean square root, is modelled over the reals (`ℝ`).  `Math.random()`
draws are modelled as an explicit stream `Nat → ℚ` of values in `[0, 1)`.
JavaScript `Array.prototype.sort`, which is guaranteed stable, is modelled
by `List.mergeSort`.
-/

namespace Bahlil

/-- RGBA channel values of one sample, as stored in the raw buffer. -/
structure PixelData where
  r : ℕ
  g : ℕ
  b : ℕ
  a : ℕ
deriving DecidableEq, Repr

/-- One sample: a position, its computed brightness and its color
(the `PixelPosition` interface of `pixel-rearrangement.ts`). -/
structure PixelPosition where
  x : ℤ
  y : ℤ
  brightness : ℚ
  color : PixelData
deriving DecidableEq, Repr

/-- Luminance used by the batch path:
`0.299 * r + 0.587 * g + 0.114 * b`. -/
def luminance (r g b : ℕ) : ℚ :=
  0.299 * r + 0.587 * g + 0.114 * b

/-- The visited coordinates of the loop
`for (v = 0; v < limit; v += step)`: for `step ≥ 1` these are exactly the
multiples of `step` below `limit`, in increasing order. -/
def strideCoords (limit step : ℕ) : List ℕ :=
  (List.range limit).filter (fun v => v % step = 0)

/-- Read the sample at scan coordinate `(x, y)` from a raw buffer:
`idx = (y * width + x) * channels`, alpha defaulting to 255 for 3-channel
buffers, as in `extractPixels`. -/
def pixelAt (data : ℕ → ℕ) (width channels x y : ℕ) : PixelPosition :=
  let idx := (y * width + x) * channels
  let r := data idx
  let g := data (idx + 1)
  let b := data (idx + 2)
  let a := if channels = 4 then data (idx + 3) else 255
  ⟨x, y, luminance r g b, ⟨r, g, b, a⟩⟩

/-- `extractPixels`: visit every `sampleStep`-th row and column in scan
order and collect the samples.  No alpha filtering at this stage. -/
def extractPixels (data : ℕ → ℕ) (width height channels sampleStep : ℕ) :
    List PixelPosition :=
  (strideCoords height sampleStep).flatMap fun y =>
    (strideCoords width sampleStep).map fun x =>
      pixelAt data width channels x y

/-- The brightness comparator `(a, b) => a.brightness - b.brightness`
as a boolean total preorder. -/
def brightLE (p q : PixelPosition) : Bool :=
  decide (p.brightness ≤ q.brightness)

/-- `sortPixelsByBrightness`: stable ascending sort by brightness
(JavaScript sort is stable). -/
def sortPixelsByBrightness (pixels : List PixelPosition) : List PixelPosition :=
  pixels.mergeSort brightLE

/-- `Math.floor((u * 2 - 1) * jitter)` for one random draw `u ∈ [0, 1)`. -/
def jitterOffset (jitter : ℕ) (u : ℚ) : ℤ :=
  ⌊(u * 2 - 1) * (jitter : ℚ)⌋

/-- `Math.max(0, Math.min(limit - 1, v))`. -/
def clampToBounds (limit : ℕ) (v : ℤ) : ℤ :=
  max 0 (min ((limit : ℤ) - 1) v)

/-- Scan-order coordinate list of the target-template double loop. -/
def targetCoords (width height step : ℕ) : List (ℕ × ℕ) :=
  (strideCoords height step).flatMap fun y =>
    (strideCoords width step).map fun x => (x, y)

/-- One iteration of the `createTargetTemplate` loop body.  The state is
the list of retained samples together with the cursor into the random
stream (two draws are consumed per retained sample when `jitter > 0`).
Samples with alpha below 50 are discarded; retained positions are
jittered and clamped to `[0, width-1] × [0, height-1]`. -/
def templateStep (data : ℕ → ℕ) (width height channels jitter : ℕ)
    (rng : ℕ → ℚ) (st : List PixelPosition × ℕ) (c : ℕ × ℕ) :
    List PixelPosition × ℕ :=
  let x := c.1
  let y := c.2
  let idx := (y * width + x) * channels
  let r := data idx
  let g := data (idx + 1)
  let b := data (idx + 2)
  let a := if channels = 4 then data (idx + 3) else 255
  if a < 50 then st
  else
    let jx := if 0 < jitter then jitterOffset jitter (rng st.2) else 0
    let jy := if 0 < jitter then jitterOffset jitter (rng (st.2 + 1)) else 0
    let k := if 0 < jitter then st.2 + 2 else st.2
    let px := clampToBounds width ((x : ℤ) + jx)
    let py := clampToBounds height ((y : ℤ) + jy)
    (st.1 ++ [⟨px, py, luminance r g b, ⟨r, g, b, a⟩⟩], k)

/-- The unsorted target template: the loop of `createTargetTemplate` over
the already cover-resized target buffer (resizing is performed by the
external image codec and is out of scope). -/
def createTargetTemplateRaw (data : ℕ → ℕ)
    (width height channels sampleStep jitter : ℕ) (rng : ℕ → ℚ) :
    List PixelPosition :=
  ((targetCoords width height sampleStep).foldl
    (templateStep data width height channels jitter rng) ([], 0)).1

/-- `createTargetTemplate`: build the retained-sample list, then sort it
ascending by brightness. -/
def createTargetTemplate (data : ℕ → ℕ)
    (width height channels sampleStep jitter : ℕ) (rng : ℕ → ℚ) :
    List PixelPosition :=
  sortPixelsByBrightness
    (createTargetTemplateRaw data width height channels sampleStep jitter rng)

/-- `mapPixelsToTarget`: sort both sets by brightness, then for
`i < min |source| |target|` pair the brightness and color of the `i`-th
source sample with the position of the `i`-th target sample.  The `Map`
returned by the code, with
keys `0, …, n-1` in insertion order is modelled as the list of its values
in key order. -/
def mapPixelsToTarget (sourcePixels targetTemplate : List PixelPosition) :
    List PixelPosition :=
  List.zipWith
    (fun s t => PixelPosition.mk t.x t.y s.brightness s.color)
    (sortPixelsByBrightness sourcePixels)
    (sortPixelsByBrightness targetTemplate)

/-- Write value `v` at byte index `i` of a buffer. -/
def setByte (buf : ℕ → ℕ) (i v : ℕ) : ℕ → ℕ :=
  fun j => if j = i then v else buf j

/-- Byte index of channel `k` of pixel `(px, py)` in an RGBA raster. -/
def byteIdx (width px py k : ℕ) : ℕ :=
  (py * width + px) * 4 + k

/-- Write the four RGBA bytes of color `c` at pixel `(px, py)`. -/
def writePixelBytes (width : ℕ) (c : PixelData) (px py : ℕ)
    (buf : ℕ → ℕ) : ℕ → ℕ :=
  setByte (setByte (setByte (setByte buf (byteIdx width px py 0) c.r)
    (byteIdx width px py 1) c.g) (byteIdx width px py 2) c.b)
    (byteIdx width px py 3) c.a

/-- The inner column loop of a tile write: for `ox` in `[0, half)` write
the color at `(p.x + ox, py)` unless that column is out of bounds. -/
def writeTileRow (width : ℕ) (half : ℕ) (p : PixelPosition) (py : ℕ)
    (buf : ℕ → ℕ) : ℕ → ℕ :=
  (List.range half).foldl
    (fun buf (ox : ℕ) =>
      let px := p.x + (ox : ℤ)
      if px < 0 ∨ (width : ℤ) ≤ px then buf
      else writePixelBytes width p.color px.toNat py buf)
    buf

/-- One tile write of `createImageFromPixels`: a `half × half` solid block
of `p.color` anchored at `(p.x, p.y)`, rows or columns outside the raster
being skipped. -/
def writeTile (width height : ℕ) (half : ℕ) (p : PixelPosition)
    (buf : ℕ → ℕ) : ℕ → ℕ :=
  (List.range half).foldl
    (fun buf (oy : ℕ) =>
      let py := p.y + (oy : ℤ)
      if py < 0 ∨ (height : ℤ) ≤ py then buf
      else writeTileRow width half p py.toNat buf)
    buf

/-- `createImageFromPixels`: allocate a zero-filled RGBA buffer and write
one tile per correspondence entry, in entry order, with tile side
`max 1 blockSize` (the PNG encoding of the finished buffer is performed
by the external codec and is out of scope). -/
def createImageFromPixels (pixelMap : List PixelPosition)
    (width height blockSize : ℕ) : ℕ → ℕ :=
  pixelMap.foldl
    (fun buf p => writeTile width height (max 1 blockSize) p buf)
    (fun _ => 0)

/-- `rearrangePixelsToTarget`: the full batch pipeline on decoded raw
buffers.  `mosaicBlockSize`, `sampleStep` and `jitter` are the already
defaulted option values; the code clamps them by
`blockSize = max 1 mosaicBlockSize`, `step = max 1 sampleStep`,
`jitter = max 0 jitter` (the latter is the identity on `ℕ`). -/
def rearrangePixelsToTarget (inputData : ℕ → ℕ)
    (inWidth inHeight inChannels : ℕ) (targetData : ℕ → ℕ)
    (outputWidth outputHeight targetChannels : ℕ)
    (mosaicBlockSize sampleStep jitter : ℕ) (rng : ℕ → ℚ) : ℕ → ℕ :=
  let blockSize := max 1 mosaicBlockSize
  let step := max 1 sampleStep
  let sourcePixels := extractPixels inputData inWidth inHeight inChannels step
  let targetTemplate := createTargetTemplate targetData outputWidth
    outputHeight targetChannels step jitter rng
  let pixelMapping := mapPixelsToTarget sourcePixels targetTemplate
  createImageFromPixels pixelMapping outputWidth outputHeight blockSize

/-- The errors raised by `validateDimensions` in `src/lib/validation.ts`,
distinguished by message. -/
inductive ValidationIssue where
  | invalidDimensions
  | dimensionsTooLarge
deriving DecidableEq, Repr

/-- `validateDimensions`: reject non-positive dimensions, then dimensions
above the fixed limit `maxDimension = 8000`; otherwise return normally. -/
def validateDimensions (width height : ℤ) : Except ValidationIssue Unit :=
  if width ≤ 0 ∨ height ≤ 0 then .error .invalidDimensions
  else if 8000 < width ∨ 8000 < height then .error .dimensionsTooLarge
  else .ok ()

/-- Does the tile of entry `p`, with side `half`, cover pixel `(px, py)`? -/
def covers (half : ℕ) (p : PixelPosition) (px py : ℕ) : Prop :=
  p.x ≤ (px : ℤ) ∧ (px : ℤ) < p.x + (half : ℤ) ∧
    p.y ≤ (py : ℤ) ∧ (py : ℤ) < p.y + (half : ℤ)

instance coversDecidable (half : ℕ) (p : PixelPosition) (px py : ℕ) :
    Decidable (covers half p px py) :=
  inferInstanceAs (Decidable (_ ∧ _ ∧ _ ∧ _))

/-- The last entry of the list whose tile covers `(px, py)`, if any:
the entry whose write survives in the output buffer. -/
def lastHit (half : ℕ) (px py : ℕ) (entries : List PixelPosition) :
    Option PixelPosition :=
  entries.foldl (fun acc p => if covers half p px py then some p else acc) none

/-- Channel `k` of a color, in RGBA byte order. -/
def channelByte (c : PixelData) (k : ℕ) : ℕ :=
  if k = 0 then c.r else if k = 1 then c.g else if k = 2 then c.b else c.a

/-- The jitter-invariant payload of a sample: brightness and color. -/
def brightColor (p : PixelPosition) : ℚ × PixelData :=
  (p.brightness, p.color)

/-- Ascending comparison of brightness keys of sample payloads. -/
def keyLE (a b : ℚ × PixelData) : Bool :=
  decide (a.1 ≤ b.1)

/-- Luminance used by the animation path (BT.709 weights):
`0.2126 * r + 0.7152 * g + 0.0722 * b`. -/
def canvasLuminance (r g b : ℕ) : ℚ :=
  0.2126 * r + 0.7152 * g + 0.0722 * b

/-- Sample collection of the particle transition in `DrawingCanvas.tsx`:
visit every `step`-th coordinate of a 4-channel raster in scan order and
keep the samples whose alpha is strictly above 50. -/
def collectPoints (data : ℕ → ℕ) (width height step : ℕ) :
    List PixelPosition :=
  (strideCoords height step).flatMap fun y =>
    (strideCoords width step).flatMap fun x =>
      let i := (y * width + x) * 4
      let r := data i
      let g := data (i + 1)
      let b := data (i + 2)
      let a := data (i + 3)
      if 50 < a then [⟨x, y, canvasLuminance r g b, ⟨r, g, b, a⟩⟩] else []

/-- Particle state of the `ParticleTransition` animation.  JavaScript
floating-point coordinates are modelled over `ℝ`; the lazily assigned
scatter target is an explicit `Option`. -/
structure Particle where
  x : ℝ
  y : ℝ
  targetX : ℝ
  targetY : ℝ
  vx : ℝ
  vy : ℝ
  originalX : ℝ
  originalY : ℝ
  scatterTargetX : Option ℝ
  scatterTargetY : Option ℝ
  color : PixelData

/-- Particle construction: pair the brightness-sorted original points with
the brightness-sorted target points; particle `i` starts at the `i`-th
source point with zero velocity, keeps the source color, and targets the
position of the `i`-th target point. -/
def buildParticles (fromPoints toPoints : List PixelPosition) :
    List Particle :=
  List.zipWith
    (fun f t => Particle.mk (f.x : ℝ) (f.y : ℝ) (t.x : ℝ) (t.y : ℝ)
      0 0 (f.x : ℝ) (f.y : ℝ) none none f.color)
    (sortPixelsByBrightness fromPoints) (sortPixelsByBrightness toPoints)

/-- One CONVERGE-phase update of a particle at local progress `q`:
while `q < 0.95`, move by attraction physics when the distance to the
target exceeds 0.5 and snap to the target otherwise; from `q ≥ 0.95` on,
lock the position to the target. -/
noncomputable def convergeTick (q : ℝ) (pt : Particle) : Particle :=
  if q < 0.95 then
    let dx := pt.targetX - pt.x
    let dy := pt.targetY - pt.y
    let distance := Real.sqrt (dx * dx + dy * dy)
    if 0.5 < distance then
      let eased := 1 - (1 - q) ^ 3
      let force := distance * 0.08 * (1 - eased * 0.5)
      let vx := (pt.vx + dx / distance * force) * 0.88
      let vy := (pt.vy + dy / distance * force) * 0.88
      { pt with vx := vx, vy := vy, x := pt.x + vx, y := pt.y + vy }
    else
      { pt with x := pt.targetX, y := pt.targetY, vx := 0, vy := 0 }
  else
    { pt with x := pt.targetX, y := pt.targetY }

/-- One animation tick at global progress `progress`, with `randX, randY`
the `Math.random()` draws used if the scatter target is still unassigned:
hold below 0.2, scatter interpolation below 0.4, converge physics
otherwise. -/
noncomputable def animateTick (width height progress randX randY : ℝ)
    (pt : Particle) : Particle :=
  if progress < 0.2 then pt
  else if progress < 0.4 then
    let scatterProgress := (progress - 0.2) / (0.4 - 0.2)
    let needAssign := pt.scatterTargetX.isNone || pt.scatterTargetY.isNone
    let sx := if needAssign then randX * width else pt.scatterTargetX.getD 0
    let sy := if needAssign then randY * height else pt.scatterTargetY.getD 0
    { pt with
        scatterTargetX := some sx
        scatterTargetY := some sy
        x := pt.originalX + (sx - pt.originalX) * scatterProgress
        y := pt.originalY + (sy - pt.originalY) * scatterProgress }
  else
    convergeTick ((progress - 0.4) / (1 - 0.4)) pt

/-- A run of the animation: fold the ticks, each given as
`(progress, randX, randY)`, over a particle. -/
noncomputable def runTicks (width height : ℝ) (ticks : List (ℝ × ℝ × ℝ))
    (pt : Particle) : Particle :=
  ticks.foldl (fun s t => animateTick width height t.1 t.2.1 t.2.2 s) pt

/-- Euclidean distance from the current position of a particle to its
target, as computed inside the CONVERGE tick. -/
noncomputable def particleDist (pt : Particle) : ℝ :=
  Real.sqrt ((pt.targetX - pt.x) * (pt.targetX - pt.x) +
    (pt.targetY - pt.y) * (pt.targetY - pt.y))

/-! Basic facts about the brightness sort. -/

theorem brightLE_trans (a b c : PixelPosition) :
    brightLE a b → brightLE b c → brightLE a c := by
  simp only [brightLE, decide_eq_true_eq]
  exact le_trans

theorem brightLE_total (a b : PixelPosition) :
    brightLE a b || brightLE b a := by
  simp only [brightLE, Bool.or_eq_true, decide_eq_true_eq]
  exact le_total a.brightness b.brightness

theorem length_sortPixelsByBrightness (l : List PixelPosition) :
    (sortPixelsByBrightness l).length = l.length :=
  List.length_mergeSort l

theorem mem_sortPixelsByBrightness {p : PixelPosition}
    {l : List PixelPosition} : p ∈ sortPixelsByBrightness l ↔ p ∈ l :=
  List.mem_mergeSort

theorem pairwise_sortPixelsByBrightness (l : List PixelPosition) :
    (sortPixelsByBrightness l).Pairwise (fun a b => brightLE a b) :=
  List.sorted_mergeSort brightLE_trans brightLE_total l

/-- Claim C10: `validateDimensions` throws a `ValidationError` exactly when
`width ≤ 0`, `height ≤ 0`, `width > 8000` or `height > 8000`; positive
dimensions exceeding 8000 are rejected with the dimensions-too-large
message, and all other dimension pairs are accepted. -/
theorem validateDimensions_spec (w h : ℤ) :
    (validateDimensions w h = .ok () ↔
      0 < w ∧ 0 < h ∧ w ≤ 8000 ∧ h ≤ 8000) ∧
    ((w ≤ 0 ∨ h ≤ 0) →
      validateDimensions w h = .error .invalidDimensions) ∧
    (0 < w → 0 < h → (8000 < w ∨ 8000 < h) →
      validateDimensions w h = .error .dimensionsTooLarge) := by
  unfold validateDimensions
  refine ⟨?_, ?_, ?_⟩ <;> split_ifs <;> simp_all <;> omega

/-- Witness for C10: a 9000 by 100 image is rejected as too large, a
9000 by 0 image is rejected as invalid, and 100 by 100 is accepted. -/
theorem validateDimensions_spec_witness :
    validateDimensions 9000 100 = .error .dimensionsTooLarge ∧
    validateDimensions 9000 0 = .error .invalidDimensions ∧
    validateDimensions 100 100 = .ok () :=
  ⟨(validateDimensions_spec 9000 100).2.2 (by norm_num) (by norm_num)
      (Or.inl (by norm_num)),
    (validateDimensions_spec 9000 0).2.1 (Or.inr (by norm_num)),
    (validateDimensions_spec 100 100).1.mpr
      ⟨by norm_num, by norm_num, by norm_num, by norm_num⟩⟩

/-- Helper: when every alpha byte is below 50, the template fold retains
nothing beyond its initial state. -/
theorem templateFold_all_transparent (data : ℕ → ℕ)
    (width height jitter : ℕ) (rng : ℕ → ℚ) (hall : ∀ i, data i < 50) :
    ∀ (coords : List (ℕ × ℕ)) (st : List PixelPosition × ℕ),
      coords.foldl (templateStep data width height 4 jitter rng) st = st := by
  intro coords
  induction coords with
  | nil => intro st; rfl
  | cons c cs ih =>
    intro st
    have hstep : templateStep data width height 4 jitter rng st c = st := by
      simp [templateStep, hall]
    simp [List.foldl_cons, hstep, ih]

/-- Counterexample to claim C5: on an empty source set and a nonempty
target set, `mapPixelsToTarget` returns normally with an empty
correspondence; no `EmptySampleSet` failure exists in the code. -/
theorem mapPixelsToTarget_empty_cex :
    mapPixelsToTarget []
      [PixelPosition.mk 0 0 0 (PixelData.mk 0 0 0 255)] = [] := by
  simp [mapPixelsToTarget, sortPixelsByBrightness]

/-- Claim C5 (amended): if the source sample set or the target sample set
is empty, the mapper returns an empty correspondence without raising any
error; in particular a fully transparent target (every alpha below 50)
yields an empty template and hence an empty correspondence. -/
theorem mapPixelsToTarget_empty_spec :
    (∀ src tgt : List PixelPosition, src = [] ∨ tgt = [] →
      mapPixelsToTarget src tgt = []) ∧
    (∀ (data : ℕ → ℕ) (w h s j : ℕ) (rng : ℕ → ℚ), (∀ i, data i < 50) →
      createTargetTemplate data w h 4 s j rng = [] ∧
      ∀ src, mapPixelsToTarget src (createTargetTemplate data w h 4 s j rng)
        = []) := by
  have hempty : ∀ src tgt : List PixelPosition, src = [] ∨ tgt = [] →
      mapPixelsToTarget src tgt = [] := by
    rintro src tgt (rfl | rfl) <;>
      simp [mapPixelsToTarget, sortPixelsByBrightness]
  refine ⟨hempty, ?_⟩
  intro data w h s j rng hall
  have htempl : createTargetTemplate data w h 4 s j rng = [] := by
    unfold createTargetTemplate createTargetTemplateRaw
    rw [templateFold_all_transparent data w h j rng hall]
    simp [sortPixelsByBrightness]
  exact ⟨htempl, fun src => by rw [htempl]; exact hempty src [] (Or.inr rfl)⟩

/-- Witness for C5: concrete empty-set runs of the mapper and a fully
transparent 1 by 1 target. -/
theorem mapPixelsToTarget_empty_spec_witness :
    mapPixelsToTarget [] [PixelPosition.mk 1 2 3 (PixelData.mk 4 5 6 255)]
      = [] ∧
    createTargetTemplate (fun _ => 0) 1 1 4 1 0 (fun _ => 0) = [] :=
  ⟨mapPixelsToTarget_empty_spec.1 _ _ (Or.inl rfl),
    ((mapPixelsToTarget_empty_spec.2 (fun _ => 0) 1 1 1 0 (fun _ => 0)
      (fun _ => by norm_num)).1)⟩

/-- Claim C1: the correspondence has exactly `min |source| |target|`
entries, and entry `i` carries the brightness and color of the `i`-th
brightness-sorted source sample together with the position of the `i`-th
brightness-sorted target sample; trailing samples of the larger sorted set
appear in no entry and no error is raised. -/
theorem mapPixelsToTarget_entries (src tgt : List PixelPosition) :
    (mapPixelsToTarget src tgt).length = min src.length tgt.length ∧
    ∀ (i : ℕ) (s t : PixelPosition),
      (sortPixelsByBrightness src)[i]? = some s →
      (sortPixelsByBrightness tgt)[i]? = some t →
      (mapPixelsToTarget src tgt)[i]? =
        some (PixelPosition.mk t.x t.y s.brightness s.color) := by
  constructor
  · unfold mapPixelsToTarget
    rw [List.length_zipWith, length_sortPixelsByBrightness,
      length_sortPixelsByBrightness]
  · intro i s t hs ht
    unfold mapPixelsToTarget
    rw [List.getElem?_zipWith, hs, ht]

/-- Witness for C1: a one-sample source against a one-sample target. -/
theorem mapPixelsToTarget_entries_witness :
    (mapPixelsToTarget [PixelPosition.mk 1 2 10 (PixelData.mk 7 8 9 255)]
      [PixelPosition.mk 3 4 20 (PixelData.mk 1 1 1 255)]).length = 1 ∧
    (mapPixelsToTarget [PixelPosition.mk 1 2 10 (PixelData.mk 7 8 9 255)]
      [PixelPosition.mk 3 4 20 (PixelData.mk 1 1 1 255)])[0]? =
      some (PixelPosition.mk 3 4 10 (PixelData.mk 7 8 9 255)) := by
  have h := mapPixelsToTarget_entries
    [PixelPosition.mk 1 2 10 (PixelData.mk 7 8 9 255)]
    [PixelPosition.mk 3 4 20 (PixelData.mk 1 1 1 255)]
  refine ⟨by simpa using h.1, ?_⟩
  exact h.2 0 (PixelPosition.mk 1 2 10 (PixelData.mk 7 8 9 255))
    (PixelPosition.mk 3 4 20 (PixelData.mk 1 1 1 255))
    (by simp [sortPixelsByBrightness]) (by simp [sortPixelsByBrightness])

/-- Claim C4: if two source samples with strictly increasing brightness
both appear in the correspondence (both ranks are populated on the target
side), the target positions they map to have non-decreasing brightness;
moreover the brightness sort is stable, so samples whose brightness keys
are already in order retain their relative scan order. -/
theorem rank_preservation_spec :
    (∀ (src tgt : List PixelPosition) (i j : ℕ) (si sj ti tj : PixelPosition),
      (sortPixelsByBrightness src)[i]? = some si →
      (sortPixelsByBrightness src)[j]? = some sj →
      (sortPixelsByBrightness tgt)[i]? = some ti →
      (sortPixelsByBrightness tgt)[j]? = some tj →
      si.brightness < sj.brightness →
      ti.brightness ≤ tj.brightness) ∧
    (∀ (l : List PixelPosition) (a b : PixelPosition),
      List.Sublist [a, b] l → a.brightness ≤ b.brightness →
      List.Sublist [a, b] (sortPixelsByBrightness l)) := by
  constructor
  · intro src tgt i j si sj ti tj hsi hsj hti htj hlt
    obtain ⟨hi, hsi⟩ := List.getElem?_eq_some_iff.mp hsi
    obtain ⟨hj, hsj⟩ := List.getElem?_eq_some_iff.mp hsj
    obtain ⟨hti', hti⟩ := List.getElem?_eq_some_iff.mp hti
    obtain ⟨htj', htj⟩ := List.getElem?_eq_some_iff.mp htj
    have hsrc := List.pairwise_iff_getElem.mp
      (pairwise_sortPixelsByBrightness src)
    have htgt := List.pairwise_iff_getElem.mp
      (pairwise_sortPixelsByBrightness tgt)
    have hij : i < j := by
      rcases Nat.lt_trichotomy i j with h | h | h
      · exact h
      · exfalso
        subst h
        rw [hsi] at hsj
        subst hsj
        exact lt_irrefl _ hlt
      · exfalso
        have hle := hsrc j i hj hi h
        rw [hsj, hsi] at hle
        simp only [brightLE, decide_eq_true_eq] at hle
        exact absurd hlt (not_lt.mpr hle)
    have hle := htgt i j hti' htj' hij
    rw [hti, htj] at hle
    simpa only [brightLE, decide_eq_true_eq] using hle
  · intro l a b hsub hab
    exact List.pair_sublist_mergeSort brightLE_trans brightLE_total
      (by simpa only [brightLE, decide_eq_true_eq] using hab) hsub

/-- Witness for C4: two concrete sorted sample pairs, and stability on a
concrete equal-brightness pair. -/
theorem rank_preservation_spec_witness :
    (PixelPosition.mk 5 5 3 (PixelData.mk 0 0 0 255)).brightness ≤
      (PixelPosition.mk 6 6 4 (PixelData.mk 0 0 0 255)).brightness ∧
    List.Sublist
      [PixelPosition.mk 0 0 7 (PixelData.mk 1 0 0 255),
        PixelPosition.mk 1 1 7 (PixelData.mk 2 0 0 255)]
      (sortPixelsByBrightness
        [PixelPosition.mk 0 0 7 (PixelData.mk 1 0 0 255),
          PixelPosition.mk 1 1 7 (PixelData.mk 2 0 0 255)]) := by
  constructor
  · exact rank_preservation_spec.1
      [PixelPosition.mk 0 0 1 (PixelData.mk 0 0 0 255),
        PixelPosition.mk 1 0 2 (PixelData.mk 0 0 0 255)]
      [PixelPosition.mk 5 5 3 (PixelData.mk 0 0 0 255),
        PixelPosition.mk 6 6 4 (PixelData.mk 0 0 0 255)]
      0 1
      (PixelPosition.mk 0 0 1 (PixelData.mk 0 0 0 255))
      (PixelPosition.mk 1 0 2 (PixelData.mk 0 0 0 255))
      (PixelPosition.mk 5 5 3 (PixelData.mk 0 0 0 255))
      (PixelPosition.mk 6 6 4 (PixelData.mk 0 0 0 255))
      (by rw [sortPixelsByBrightness, List.mergeSort_of_sorted (by decide)]; rfl)
      (by rw [sortPixelsByBrightness, List.mergeSort_of_sorted (by decide)]; rfl)
      (by rw [sortPixelsByBrightness, List.mergeSort_of_sorted (by decide)]; rfl)
      (by rw [sortPixelsByBrightness, List.mergeSort_of_sorted (by decide)]; rfl)
      (by norm_num)
  · exact rank_preservation_spec.2 _ _ _ (List.Sublist.refl _) (by norm_num)

/-- Helper: every sample retained by the template fold has alpha at
least 50, provided the accumulator already satisfies the bound. -/
theorem templateFold_alpha (data : ℕ → ℕ) (w h ch j : ℕ) (rng : ℕ → ℚ) :
    ∀ (coords : List (ℕ × ℕ)) (st : List PixelPosition × ℕ),
      (∀ p ∈ st.1, 50 ≤ p.color.a) →
      ∀ p ∈ (coords.foldl (templateStep data w h ch j rng) st).1,
        50 ≤ p.color.a := by
  intro coords
  induction coords with
  | nil => intro st hst; simpa using hst
  | cons c cs ih =>
    intro st hst
    rw [List.foldl_cons]
    apply ih
    intro p hp
    simp only [templateStep] at hp
    by_cases h50 : (if ch = 4 then data ((c.2 * w + c.1) * ch + 3) else 255) < 50
    · rw [if_pos h50] at hp
      exact hst p hp
    · rw [if_neg h50] at hp
      simp only [List.mem_append, List.mem_singleton] at hp
      rcases hp with hp | rfl
      · exact hst p hp
      · simpa using Nat.le_of_not_lt h50

/-- Helper: every member of a `zipWith` comes from a pair of members. -/
theorem exists_of_mem_zipWith {α β γ : Type} {f : α → β → γ} {c : γ}
    {l1 : List α} {l2 : List β} (h : c ∈ List.zipWith f l1 l2) :
    ∃ a ∈ l1, ∃ b ∈ l2, c = f a b := by
  obtain ⟨i, hi⟩ := List.mem_iff_getElem?.mp h
  obtain ⟨a, b, ha, hb, hab⟩ := List.getElem?_zipWith_eq_some.mp hi
  exact ⟨a, List.getElem?_mem ha, b, List.getElem?_mem hb, hab.symm⟩

/-- Claim C9: every target sample with alpha strictly below 50 is
discarded during target-template construction and therefore never
appears as the target of any correspondence entry, in the batch path
(threshold `alpha < 50` discarded) and in the particle-animation path
(which retains only `alpha > 50`, hence also discards all `alpha < 50`). -/
theorem alpha_filter_spec :
    (∀ (data : ℕ → ℕ) (w h ch s j : ℕ) (rng : ℕ → ℚ),
      ∀ p ∈ createTargetTemplate data w h ch s j rng, 50 ≤ p.color.a) ∧
    (∀ (src : List PixelPosition) (data : ℕ → ℕ) (w h ch s j : ℕ)
      (rng : ℕ → ℚ),
      ∀ m ∈ mapPixelsToTarget src (createTargetTemplate data w h ch s j rng),
        ∃ t ∈ createTargetTemplate data w h ch s j rng,
          m.x = t.x ∧ m.y = t.y ∧ 50 ≤ t.color.a) ∧
    (∀ (data : ℕ → ℕ) (w h st : ℕ),
      ∀ q ∈ collectPoints data w h st, 50 < q.color.a) ∧
    (∀ (fromPts toPts : List PixelPosition),
      ∀ pr ∈ buildParticles fromPts toPts,
        ∃ t ∈ toPts, pr.targetX = (t.x : ℝ) ∧ pr.targetY = (t.y : ℝ)) := by
  have htempl : ∀ (data : ℕ → ℕ) (w h ch s j : ℕ) (rng : ℕ → ℚ),
      ∀ p ∈ createTargetTemplate data w h ch s j rng, 50 ≤ p.color.a := by
    intro data w h ch s j rng p hp
    rw [createTargetTemplate, mem_sortPixelsByBrightness] at hp
    exact templateFold_alpha data w h ch j rng _ ([], 0) (by simp) p hp
  refine ⟨htempl, ?_, ?_, ?_⟩
  · intro src data w h ch s j rng m hm
    obtain ⟨a, _, t, ht, rfl⟩ := exists_of_mem_zipWith hm
    rw [mem_sortPixelsByBrightness] at ht
    exact ⟨t, ht, rfl, rfl, htempl data w h ch s j rng t ht⟩
  · intro data w h st q hq
    simp only [collectPoints, List.mem_flatMap] at hq
    obtain ⟨y, -, x, -, hq⟩ := hq
    by_cases ha : 50 < data ((y * w + x) * 4 + 3)
    · rw [if_pos ha] at hq
      rw [List.mem_singleton] at hq
      subst hq
      exact ha
    · rw [if_neg ha] at hq
      exact absurd hq (List.not_mem_nil q)
  · intro fromPts toPts pr hpr
    obtain ⟨f, _, t, ht, rfl⟩ := exists_of_mem_zipWith hpr
    rw [mem_sortPixelsByBrightness] at ht
    exact ⟨t, ht, rfl, rfl⟩

/-- Witness for C9: a fully opaque 1 by 1 target raster for the batch
path and the canvas path, with one source sample. -/
theorem alpha_filter_spec_witness :
    (∀ p ∈ createTargetTemplate (fun _ => 255) 1 1 4 1 0 (fun _ => 0),
      50 ≤ p.color.a) ∧
    (∀ q ∈ collectPoints (fun _ => 255) 1 1 1, 50 < q.color.a) ∧
    (∀ pr ∈ buildParticles [PixelPosition.mk 0 0 3 (PixelData.mk 9 9 9 255)]
        [PixelPosition.mk 0 0 5 (PixelData.mk 8 8 8 255)],
      ∃ t ∈ [PixelPosition.mk 0 0 5 (PixelData.mk 8 8 8 255)],
        pr.targetX = (t.x : ℝ) ∧ pr.targetY = (t.y : ℝ)) :=
  ⟨alpha_filter_spec.1 (fun _ => 255) 1 1 4 1 0 (fun _ => 0),
    alpha_filter_spec.2.2.1 (fun _ => 255) 1 1 1,
    alpha_filter_spec.2.2.2 [PixelPosition.mk 0 0 3 (PixelData.mk 9 9 9 255)]
      [PixelPosition.mk 0 0 5 (PixelData.mk 8 8 8 255)]⟩

/-- Claim C7: with jitter radius 0 the batch pipeline is a deterministic
function of its inputs; two runs with different random streams produce
identical output rasters byte for byte. -/
theorem batch_determinism (inputData targetData : ℕ → ℕ)
    (iw ih ich ow oh tch bs ss : ℕ) (rng1 rng2 : ℕ → ℚ) :
    rearrangePixelsToTarget inputData iw ih ich targetData ow oh tch
        bs ss 0 rng1 =
      rearrangePixelsToTarget inputData iw ih ich targetData ow oh tch
        bs ss 0 rng2 := by
  unfold rearrangePixelsToTarget
  have hstep : templateStep targetData ow oh tch 0 rng1 =
      templateStep targetData ow oh tch 0 rng2 := by
    funext st c
    simp [templateStep]
  simp only [createTargetTemplate, createTargetTemplateRaw, hstep]

/-- Counterexample to claim C8: with jitter radius 1 the offset `+1` is
not attainable for any random draw in `[0, 1)`, because
`Math.floor((u * 2 - 1) * j)` ranges over `[-j, j - 1]` only. -/
theorem jitterOffset_plus_j_cex :
    ¬ ∃ u : ℚ, 0 ≤ u ∧ u < 1 ∧ jitterOffset 1 u = 1 := by
  rintro ⟨u, hu0, hu1, he⟩
  unfold jitterOffset at he
  have h1 : ((1 : ℤ) : ℚ) ≤ (u * 2 - 1) * ((1 : ℕ) : ℚ) :=
    Int.le_floor.mp (le_of_eq he.symm)
  push_cast at h1
  linarith

/-- Helper: bounds of clamping to `[0, limit - 1]`. -/
theorem clampToBounds_mem (limit : ℕ) (v : ℤ) (hlim : 1 ≤ limit) :
    0 ≤ clampToBounds limit v ∧ clampToBounds limit v ≤ (limit : ℤ) - 1 := by
  unfold clampToBounds
  refine ⟨le_max_left 0 _, max_le ?_ (min_le_left _ _)⟩
  have : (1 : ℤ) ≤ (limit : ℤ) := by exact_mod_cast hlim
  omega

/-- Helper: every sample retained by the template fold has a clamped
position inside the raster bounds. -/
theorem templateFold_bounds (data : ℕ → ℕ) (w h ch j : ℕ) (rng : ℕ → ℚ)
    (hw : 1 ≤ w) (hh : 1 ≤ h) :
    ∀ (coords : List (ℕ × ℕ)) (st : List PixelPosition × ℕ),
      (∀ p ∈ st.1, 0 ≤ p.x ∧ p.x ≤ (w : ℤ) - 1 ∧
        0 ≤ p.y ∧ p.y ≤ (h : ℤ) - 1) →
      ∀ p ∈ (coords.foldl (templateStep data w h ch j rng) st).1,
        0 ≤ p.x ∧ p.x ≤ (w : ℤ) - 1 ∧ 0 ≤ p.y ∧ p.y ≤ (h : ℤ) - 1 := by
  intro coords
  induction coords with
  | nil => intro st hst; simpa using hst
  | cons c cs ih =>
    intro st hst
    rw [List.foldl_cons]
    apply ih
    intro p hp
    simp only [templateStep] at hp
    by_cases h50 : (if ch = 4 then data ((c.2 * w + c.1) * ch + 3) else 255) < 50
    · rw [if_pos h50] at hp
      exact hst p hp
    · rw [if_neg h50] at hp
      simp only [List.mem_append, List.mem_singleton] at hp
      rcases hp with hp | rfl
      · exact hst p hp
      · exact ⟨(clampToBounds_mem w _ hw).1, (clampToBounds_mem w _ hw).2,
          (clampToBounds_mem h _ hh).1, (clampToBounds_mem h _ hh).2⟩

/-- Helper: the template fold retains the same brightness and color
sequence whatever the jitter radius and random stream. -/
theorem templateFold_ignores_jitter (data : ℕ → ℕ) (w h ch j : ℕ)
    (rng rng0 : ℕ → ℚ) :
    ∀ (coords : List (ℕ × ℕ)) (st1 st2 : List PixelPosition × ℕ),
      st1.1.map brightColor = st2.1.map brightColor →
      ((coords.foldl (templateStep data w h ch j rng) st1).1).map brightColor
        = ((coords.foldl (templateStep data w h ch 0 rng0) st2).1).map
            brightColor := by
  intro coords
  induction coords with
  | nil => intro st1 st2 hst; simpa using hst
  | cons c cs ih =>
    intro st1 st2 hst
    rw [List.foldl_cons, List.foldl_cons]
    apply ih
    simp only [templateStep]
    by_cases h50 : (if ch = 4 then data ((c.2 * w + c.1) * ch + 3) else 255) < 50
    · rw [if_pos h50, if_pos h50]
      exact hst
    · rw [if_neg h50, if_neg h50]
      simp only [List.map_append, hst, List.map_cons, List.map_nil,
        brightColor]

/-- Claim C8 (amended): with jitter radius `j > 0` each retained target
sample is perturbed per axis by an integer offset `⌊(u·2−1)·j⌋` for an
independent uniform draw `u ∈ [0,1)`; the offset always lies in
`[-j, j-1]` (the offset `+j` of the original claim is not attainable) and
every integer in `[-j, j-1]` is attainable; the perturbed position is
clamped to `[0, width-1] × [0, height-1]`; brightness and color of every
sample are unchanged by the jitter. -/
theorem jitter_spec :
    (∀ (j : ℕ) (u : ℚ), 0 < j → 0 ≤ u → u < 1 →
      -(j : ℤ) ≤ jitterOffset j u ∧ jitterOffset j u ≤ (j : ℤ) - 1) ∧
    (∀ (j : ℕ) (k : ℤ), 0 < j → -(j : ℤ) ≤ k → k ≤ (j : ℤ) - 1 →
      ∃ u : ℚ, 0 ≤ u ∧ u < 1 ∧ jitterOffset j u = k) ∧
    (∀ (data : ℕ → ℕ) (w h ch s j : ℕ) (rng : ℕ → ℚ), 1 ≤ w → 1 ≤ h →
      ∀ p ∈ createTargetTemplateRaw data w h ch s j rng,
        0 ≤ p.x ∧ p.x ≤ (w : ℤ) - 1 ∧ 0 ≤ p.y ∧ p.y ≤ (h : ℤ) - 1) ∧
    (∀ (data : ℕ → ℕ) (w h ch s j : ℕ) (rng rng0 : ℕ → ℚ),
      (createTargetTemplateRaw data w h ch s j rng).map brightColor =
        (createTargetTemplateRaw data w h ch s 0 rng0).map brightColor) := by
  refine ⟨?_, ?_, ?_, ?_⟩
  · intro j u hj hu0 hu1
    have hjq : (0 : ℚ) < (j : ℚ) := by exact_mod_cast hj
    constructor
    · apply Int.le_floor.mpr
      push_cast
      nlinarith
    · have hlt : jitterOffset j u < (j : ℤ) := by
        apply Int.floor_lt.mpr
        push_cast
        nlinarith
      omega
  · intro j k hj hk1 hk2
    have hjq : (0 : ℚ) < (j : ℚ) := by exact_mod_cast hj
    refine ⟨((k : ℚ) + (j : ℚ)) / (2 * (j : ℚ)), ?_, ?_, ?_⟩
    · apply div_nonneg _ (by linarith)
      have : (-(j : ℤ) : ℚ) ≤ (k : ℚ) := by exact_mod_cast hk1
      push_cast at this
      linarith
    · rw [div_lt_one (by linarith)]
      have : (k : ℚ) ≤ (j : ℚ) - 1 := by exact_mod_cast hk2
      linarith
    · unfold jitterOffset
      have harg : (((k : ℚ) + (j : ℚ)) / (2 * (j : ℚ)) * 2 - 1) * (j : ℚ)
          = (k : ℚ) := by
        field_simp
        ring
      rw [harg]
      exact Int.floor_intCast k
  · intro data w h ch s j rng hw hh
    exact templateFold_bounds data w h ch j rng hw hh _ ([], 0) (by simp)
  · intro data w h ch s j rng rng0
    exact templateFold_ignores_jitter data w h ch j rng rng0 _ ([], 0)
      ([], 0) rfl

/-- Witness for C8: offset bounds at `j = 2, u = 1/2`, attainability of
`-1` at `j = 1`, in-bounds positions of a concrete jittered 1 by 1
template, and jitter-independence of its brightness and color payload. -/
theorem jitter_spec_witness :
    (-(2 : ℤ) ≤ jitterOffset 2 (1 / 2) ∧
      jitterOffset 2 (1 / 2) ≤ (2 : ℤ) - 1) ∧
    (∃ u : ℚ, 0 ≤ u ∧ u < 1 ∧ jitterOffset 1 u = -1) ∧
    (∀ p ∈ createTargetTemplateRaw (fun _ => 255) 1 1 4 1 1 (fun _ => 0),
      0 ≤ p.x ∧ p.x ≤ (1 : ℤ) - 1 ∧ 0 ≤ p.y ∧ p.y ≤ (1 : ℤ) - 1) ∧
    (createTargetTemplateRaw (fun _ => 255) 1 1 4 1 1 (fun _ => 0)).map
        brightColor =
      (createTargetTemplateRaw (fun _ => 255) 1 1 4 1 0 (fun _ => 0)).map
        brightColor :=
  ⟨jitter_spec.1 2 (1 / 2) (by norm_num) (by norm_num) (by norm_num),
    jitter_spec.2.1 1 (-1) (by norm_num) (by norm_num) (by norm_num),
    jitter_spec.2.2.1 (fun _ => 255) 1 1 4 1 1 (fun _ => 0)
      (by norm_num) (by norm_num),
    jitter_spec.2.2.2 (fun _ => 255) 1 1 4 1 1 (fun _ => 0) (fun _ => 0)⟩

/-- Helper: byte indices of the same pixel differ only in the channel. -/
theorem byteIdx_channel_inj (w px py k t : ℕ) :
    byteIdx w px py k = byteIdx w px py t ↔ k = t := by
  unfold byteIdx
  generalize py * w + px = m
  omega

/-- Helper: the row-major pixel index is injective on in-bounds columns. -/
theorem rowcol_inj (w px py px' py' : ℕ) (hx : px < w) (hx' : px' < w)
    (h : py * w + px = py' * w + px') : px = px' ∧ py = py' := by
  have hw : 0 < w := Nat.lt_of_le_of_lt (Nat.zero_le px) hx
  have hpx : px = px' := by
    have h1 := congrArg (fun n => n % w) h
    simpa [Nat.add_comm, Nat.add_mul_mod_self_left, Nat.mod_eq_of_lt hx,
      Nat.mod_eq_of_lt hx'] using h1
  subst hpx
  refine ⟨rfl, ?_⟩
  have : py * w = py' * w := by omega
  exact Nat.eq_of_mul_eq_mul_right hw this

/-- Helper: byte indices of in-bounds pixels and channels are injective. -/
theorem byteIdx_inj (w px py k px' py' k' : ℕ) (hx : px < w)
    (hx' : px' < w) (hk : k < 4) (hk' : k' < 4)
    (h : byteIdx w px py k = byteIdx w px' py' k') :
    px = px' ∧ py = py' ∧ k = k' := by
  unfold byteIdx at h
  have hm : py * w + px = py' * w + px' ∧ k = k' := by
    revert h
    generalize py * w + px = m
    generalize py' * w + px' = n
    intro h
    omega
  obtain ⟨hxy, hkk⟩ := hm
  obtain ⟨h1, h2⟩ := rowcol_inj w px py px' py' hx hx' hxy
  exact ⟨h1, h2, hkk⟩

/-- Helper: the value left at one byte by a four-byte pixel write. -/
theorem writePixelBytes_eval (w : ℕ) (c : PixelData) (px' py' px py k : ℕ)
    (buf : ℕ → ℕ) (hx : px < w) (hx' : px' < w) (hk : k < 4) :
    writePixelBytes w c px' py' buf (byteIdx w px py k) =
      if px' = px ∧ py' = py then channelByte c k
      else buf (byteIdx w px py k) := by
  by_cases hpp : px' = px ∧ py' = py
  · obtain ⟨rfl, rfl⟩ := hpp
    rw [if_pos ⟨rfl, rfl⟩]
    simp only [writePixelBytes, setByte, byteIdx_channel_inj]
    interval_cases k <;> simp [channelByte]
  · rw [if_neg hpp]
    have hne : ∀ t, t < 4 → byteIdx w px py k ≠ byteIdx w px' py' t := by
      intro t ht heq
      obtain ⟨h1, h2, -⟩ := byteIdx_inj w px py k px' py' t hx hx' hk ht heq
      exact hpp ⟨h1.symm, h2.symm⟩
    simp only [writePixelBytes, setByte]
    rw [if_neg (hne 3 (by norm_num)), if_neg (hne 2 (by norm_num)),
      if_neg (hne 1 (by norm_num)), if_neg (hne 0 (by norm_num))]

/-- Helper: the value left at one byte by one tile row write. -/
theorem writeTileRow_eval (w half : ℕ) (p : PixelPosition) (rowY : ℕ)
    (buf : ℕ → ℕ) (px py k : ℕ) (hx : px < w) (hk : k < 4) :
    writeTileRow w half p rowY buf (byteIdx w px py k) =
      if rowY = py ∧ p.x ≤ (px : ℤ) ∧ (px : ℤ) < p.x + (half : ℤ) then
        channelByte p.color k
      else buf (byteIdx w px py k) := by
  induction half with
  | zero =>
    have hc : ¬ (rowY = py ∧ p.x ≤ (px : ℤ) ∧
        (px : ℤ) < p.x + ((0 : ℕ) : ℤ)) := by
      rintro ⟨-, h1, h2⟩
      omega
    rw [if_neg hc]
    rfl
  | succ n ih =>
    have hstep : writeTileRow w (n + 1) p rowY buf =
        (if p.x + (n : ℤ) < 0 ∨ (w : ℤ) ≤ p.x + (n : ℤ) then
          writeTileRow w n p rowY buf
        else writePixelBytes w p.color (p.x + (n : ℤ)).toNat rowY
          (writeTileRow w n p rowY buf)) := by
      simp only [writeTileRow, List.range_succ, List.foldl_append,
        List.foldl_cons, List.foldl_nil]
    rw [hstep]
    by_cases hb : p.x + (n : ℤ) < 0 ∨ (w : ℤ) ≤ p.x + (n : ℤ)
    · rw [if_pos hb, ih]
      have hcond : (rowY = py ∧ p.x ≤ (px : ℤ) ∧
            (px : ℤ) < p.x + ((n + 1 : ℕ) : ℤ)) ↔
          (rowY = py ∧ p.x ≤ (px : ℤ) ∧ (px : ℤ) < p.x + (n : ℤ)) := by
        constructor
        · rintro ⟨h1, h2, h3⟩
          exact ⟨h1, h2, by omega⟩
        · rintro ⟨h1, h2, h3⟩
          exact ⟨h1, h2, by omega⟩
      rw [if_congr hcond rfl rfl]
    · push_neg at hb
      rw [if_neg (by push_neg; exact hb)]
      have hx' : (p.x + (n : ℤ)).toNat < w := by omega
      rw [writePixelBytes_eval w p.color ((p.x + (n : ℤ)).toNat) rowY
        px py k _ hx hx' hk, ih]
      by_cases hpx : p.x + (n : ℤ) = (px : ℤ)
      · have htn : (p.x + (n : ℤ)).toNat = px := by omega
        by_cases hrow : rowY = py
        · rw [if_pos ⟨htn, hrow⟩,
            if_pos ⟨hrow, by omega, by omega⟩]
        · have hc1 : ¬ ((p.x + (n : ℤ)).toNat = px ∧ rowY = py) := by
            rintro ⟨-, h2⟩
            exact hrow h2
          have hc2 : ¬ (rowY = py ∧ p.x ≤ (px : ℤ) ∧
              (px : ℤ) < p.x + (n : ℤ)) := by
            rintro ⟨h1, -, -⟩
            exact hrow h1
          have hc3 : ¬ (rowY = py ∧ p.x ≤ (px : ℤ) ∧
              (px : ℤ) < p.x + ((n + 1 : ℕ) : ℤ)) := by
            rintro ⟨h1, -, -⟩
            exact hrow h1
          rw [if_neg hc1, if_neg hc2, if_neg hc3]
      · have hc1 : ¬ ((p.x + (n : ℤ)).toNat = px ∧ rowY = py) := by
          rintro ⟨h1, -⟩
          exact hpx (by omega)
        rw [if_neg hc1]
        have hcond : (rowY = py ∧ p.x ≤ (px : ℤ) ∧
              (px : ℤ) < p.x + ((n + 1 : ℕ) : ℤ)) ↔
            (rowY = py ∧ p.x ≤ (px : ℤ) ∧ (px : ℤ) < p.x + (n : ℤ)) := by
          constructor
          · rintro ⟨h1, h2, h3⟩
            exact ⟨h1, h2, by omega⟩
          · rintro ⟨h1, h2, h3⟩
            exact ⟨h1, h2, by omega⟩
        rw [if_congr hcond rfl rfl]

/-- Helper: the value left at one byte by the first `m` rows of a tile
write whose rows have length `half`. -/
theorem writeTileRows_eval (w h half : ℕ) (p : PixelPosition)
    (px py k : ℕ) (hx : px < w) (hy : py < h) (hk : k < 4) :
    ∀ (m : ℕ) (buf : ℕ → ℕ),
      ((List.range m).foldl
        (fun buf (oy : ℕ) =>
          let pyZ := p.y + (oy : ℤ)
          if pyZ < 0 ∨ (h : ℤ) ≤ pyZ then buf
          else writeTileRow w half p pyZ.toNat buf) buf) (byteIdx w px py k)
      =
      if p.y ≤ (py : ℤ) ∧ (py : ℤ) < p.y + (m : ℤ) ∧
          p.x ≤ (px : ℤ) ∧ (px : ℤ) < p.x + (half : ℤ) then
        channelByte p.color k
      else buf (byteIdx w px py k) := by
  intro m
  induction m with
  | zero =>
    intro buf
    have hc : ¬ (p.y ≤ (py : ℤ) ∧ (py : ℤ) < p.y + ((0 : ℕ) : ℤ) ∧
        p.x ≤ (px : ℤ) ∧ (px : ℤ) < p.x + (half : ℤ)) := by
      rintro ⟨h1, h2, -, -⟩
      omega
    rw [if_neg hc]
    rfl
  | succ n ih =>
    intro buf
    rw [List.range_succ, List.foldl_append, List.foldl_cons, List.foldl_nil]
    show (if p.y + (n : ℤ) < 0 ∨ (h : ℤ) ≤ p.y + (n : ℤ) then
        (List.range n).foldl _ buf
      else writeTileRow w half p (p.y + (n : ℤ)).toNat
        ((List.range n).foldl _ buf)) (byteIdx w px py k) = _
    by_cases hb : p.y + (n : ℤ) < 0 ∨ (h : ℤ) ≤ p.y + (n : ℤ)
    · rw [if_pos hb, ih buf]
      have hcond : (p.y ≤ (py : ℤ) ∧ (py : ℤ) < p.y + ((n + 1 : ℕ) : ℤ) ∧
            p.x ≤ (px : ℤ) ∧ (px : ℤ) < p.x + (half : ℤ)) ↔
          (p.y ≤ (py : ℤ) ∧ (py : ℤ) < p.y + (n : ℤ) ∧
            p.x ≤ (px : ℤ) ∧ (px : ℤ) < p.x + (half : ℤ)) := by
        constructor
        · rintro ⟨h1, h2, h3, h4⟩
          exact ⟨h1, by omega, h3, h4⟩
        · rintro ⟨h1, h2, h3, h4⟩
          exact ⟨h1, by omega, h3, h4⟩
      rw [if_congr hcond rfl rfl]
    · push_neg at hb
      rw [if_neg (by push_neg; exact hb)]
      rw [writeTileRow_eval w half p ((p.y + (n : ℤ)).toNat) _ px py k hx hk,
        ih buf]
      by_cases hpy : p.y + (n : ℤ) = (py : ℤ)
      · have htn : (p.y + (n : ℤ)).toNat = py := by omega
        by_cases hcol : p.x ≤ (px : ℤ) ∧ (px : ℤ) < p.x + (half : ℤ)
        · rw [if_pos ⟨htn, hcol.1, hcol.2⟩,
            if_pos ⟨by omega, by omega, hcol.1, hcol.2⟩]
        · have hc1 : ¬ ((p.y + (n : ℤ)).toNat = py ∧ p.x ≤ (px : ℤ) ∧
              (px : ℤ) < p.x + (half : ℤ)) := by
            rintro ⟨-, h2, h3⟩
            exact hcol ⟨h2, h3⟩
          have hc2 : ¬ (p.y ≤ (py : ℤ) ∧ (py : ℤ) < p.y + (n : ℤ) ∧
              p.x ≤ (px : ℤ) ∧ (px : ℤ) < p.x + (half : ℤ)) := by
            rintro ⟨-, -, h3, h4⟩
            exact hcol ⟨h3, h4⟩
          have hc3 : ¬ (p.y ≤ (py : ℤ) ∧ (py : ℤ) < p.y + ((n + 1 : ℕ) : ℤ) ∧
              p.x ≤ (px : ℤ) ∧ (px : ℤ) < p.x + (half : ℤ)) := by
            rintro ⟨-, -, h3, h4⟩
            exact hcol ⟨h3, h4⟩
          rw [if_neg hc1, if_neg hc2, if_neg hc3]
      · have hc1 : ¬ ((p.y + (n : ℤ)).toNat = py ∧ p.x ≤ (px : ℤ) ∧
            (px : ℤ) < p.x + (half : ℤ)) := by
          rintro ⟨h1, -, -⟩
          exact hpy (by omega)
        rw [if_neg hc1]
        have hcond : (p.y ≤ (py : ℤ) ∧ (py : ℤ) < p.y + ((n + 1 : ℕ) : ℤ) ∧
              p.x ≤ (px : ℤ) ∧ (px : ℤ) < p.x + (half : ℤ)) ↔
            (p.y ≤ (py : ℤ) ∧ (py : ℤ) < p.y + (n : ℤ) ∧
              p.x ≤ (px : ℤ) ∧ (px : ℤ) < p.x + (half : ℤ)) := by
          constructor
          · rintro ⟨h1, h2, h3, h4⟩
            exact ⟨h1, by omega, h3, h4⟩
          · rintro ⟨h1, h2, h3, h4⟩
            exact ⟨h1, by omega, h3, h4⟩
        rw [if_congr hcond rfl rfl]

/-- Helper: the value left at one byte by one full tile write. -/
theorem writeTile_eval (w h half : ℕ) (p : PixelPosition) (buf : ℕ → ℕ)
    (px py k : ℕ) (hx : px < w) (hy : py < h) (hk : k < 4) :
    writeTile w h half p buf (byteIdx w px py k) =
      if covers half p px py then channelByte p.color k
      else buf (byteIdx w px py k) := by
  have := writeTileRows_eval w h half p px py k hx hy hk half buf
  rw [writeTile]
  rw [this]
  have hcond : (p.y ≤ (py : ℤ) ∧ (py : ℤ) < p.y + (half : ℤ) ∧
        p.x ≤ (px : ℤ) ∧ (px : ℤ) < p.x + (half : ℤ)) ↔
      covers half p px py := by
    unfold covers
    tauto
  rw [if_congr hcond rfl rfl]

/-- Helper: the correspondence fold computing the last covering entry,
started from an arbitrary accumulator. -/
theorem lastHit_foldl (half px py : ℕ) :
    ∀ (entries : List PixelPosition) (acc : Option PixelPosition),
      entries.foldl
          (fun acc p => if covers half p px py then some p else acc) acc =
        match lastHit half px py entries with
        | some q => some q
        | none => acc := by
  intro entries
  induction entries with
  | nil => intro acc; rfl
  | cons p rest ih =>
    intro acc
    have hcons : lastHit half px py (p :: rest) =
        match lastHit half px py rest with
        | some q => some q
        | none => if covers half p px py then some p else none := by
      unfold lastHit
      rw [List.foldl_cons, ih]
      rfl
    rw [List.foldl_cons, ih, hcons]
    cases lastHit half px py rest with
    | some q => rfl
    | none =>
      by_cases hc : covers half p px py
      · rw [if_pos hc, if_pos hc]
      · rw [if_neg hc, if_neg hc]

/-- Helper: the value left at one byte by writing all tiles in entry
order over an arbitrary initial buffer. -/
theorem tilesFold_eval (w h half : ℕ) (px py k : ℕ) (hx : px < w)
    (hy : py < h) (hk : k < 4) :
    ∀ (entries : List PixelPosition) (buf : ℕ → ℕ),
      (entries.foldl (fun buf p => writeTile w h half p buf) buf)
          (byteIdx w px py k) =
        match lastHit half px py entries with
        | some p => channelByte p.color k
        | none => buf (byteIdx w px py k) := by
  intro entries
  induction entries with
  | nil => intro buf; rfl
  | cons p rest ih =>
    intro buf
    have hcons : lastHit half px py (p :: rest) =
        match lastHit half px py rest with
        | some q => some q
        | none => if covers half p px py then some p else none := by
      unfold lastHit
      rw [List.foldl_cons, lastHit_foldl half px py rest]
      rfl
    rw [List.foldl_cons, ih, hcons]
    cases lastHit half px py rest with
    | some q => rfl
    | none =>
      rw [writeTile_eval w h half p buf px py k hx hy hk]
      by_cases hc : covers half p px py
      · rw [if_pos hc, if_pos hc]
      · rw [if_neg hc, if_neg hc]

/-- Claim C6: the mosaic renderer starts from an all-zero (transparent)
RGBA buffer and writes, for each correspondence entry in rank order, a
solid `blockSize × blockSize` tile of the entry color clipped to the
raster; at every in-bounds pixel the surviving bytes are those of the
last entry whose tile covers the pixel, and pixels covered by no tile
keep all four bytes zero. -/
theorem createImageFromPixels_spec (entries : List PixelPosition)
    (width height blockSize : ℕ) (hbs : 1 ≤ blockSize)
    (px py k : ℕ) (hx : px < width) (hy : py < height) (hk : k < 4) :
    createImageFromPixels entries width height blockSize
        (byteIdx width px py k) =
      match lastHit blockSize px py entries with
      | some p => channelByte p.color k
      | none => 0 := by
  have hhalf : max 1 blockSize = blockSize := Nat.max_eq_right hbs
  unfold createImageFromPixels
  rw [hhalf,
    tilesFold_eval width height blockSize px py k hx hy hk entries
      (fun _ => 0)]

/-- Witness for C6: two unit tiles written at the same position of a
2 by 2 raster; the red byte at the covered pixel carries the color of
the later entry, and an uncovered pixel keeps a zero alpha byte. -/
theorem createImageFromPixels_spec_witness :
    createImageFromPixels
        [PixelPosition.mk 0 0 1 (PixelData.mk 7 7 7 255),
          PixelPosition.mk 0 0 2 (PixelData.mk 9 9 9 255)] 2 2 1
        (byteIdx 2 0 0 0) = 9 ∧
    createImageFromPixels
        [PixelPosition.mk 0 0 1 (PixelData.mk 7 7 7 255),
          PixelPosition.mk 0 0 2 (PixelData.mk 9 9 9 255)] 2 2 1
        (byteIdx 2 1 1 3) = 0 := by
  constructor
  · rw [createImageFromPixels_spec _ 2 2 1 (by norm_num) 0 0 0
      (by norm_num) (by norm_num) (by norm_num)]
    rfl
  · rw [createImageFromPixels_spec _ 2 2 1 (by norm_num) 1 1 3
      (by norm_num) (by norm_num) (by norm_num)]
    rfl

/-- Claim C2: during CONVERGE with local progress `q < 0.95`, a tick with
distance `d > 0.5` to the target adds the unit direction times the force
`d * 0.08 * (1 - e * 0.5)` with `e = 1 - (1 - q)^3` to the velocity, then
damps the velocity by `0.88`, then adds the velocity to the position;
with `d ≤ 0.5` it snaps the position to the target and zeroes the
velocity, so the division by `d` happens only when `d > 0.5` and a zero
distance is handled by the snap branch, never as an error. -/
theorem convergeTick_physics (q : ℝ) (pt : Particle) (hq : q < 0.95) :
    (particleDist pt ≤ 0.5 →
      convergeTick q pt =
        { pt with x := pt.targetX, y := pt.targetY, vx := 0, vy := 0 }) ∧
    (0.5 < particleDist pt →
      convergeTick q pt =
        { pt with
            vx := (pt.vx + (pt.targetX - pt.x) / particleDist pt *
              (particleDist pt * 0.08 * (1 - (1 - (1 - q) ^ 3) * 0.5))) *
                0.88
            vy := (pt.vy + (pt.targetY - pt.y) / particleDist pt *
              (particleDist pt * 0.08 * (1 - (1 - (1 - q) ^ 3) * 0.5))) *
                0.88
            x := pt.x + (pt.vx + (pt.targetX - pt.x) / particleDist pt *
              (particleDist pt * 0.08 * (1 - (1 - (1 - q) ^ 3) * 0.5))) *
                0.88
            y := pt.y + (pt.vy + (pt.targetY - pt.y) / particleDist pt *
              (particleDist pt * 0.08 * (1 - (1 - (1 - q) ^ 3) * 0.5))) *
                0.88 }) ∧
    (pt.x = pt.targetX → pt.y = pt.targetY →
      convergeTick q pt =
        { pt with x := pt.targetX, y := pt.targetY, vx := 0, vy := 0 }) := by
  have hd : ∀ r : Prop, (particleDist pt ≤ 0.5 → r) →
      (0.5 < particleDist pt → r) → r := fun r h1 h2 =>
    (le_or_lt (particleDist pt) 0.5).elim h1 h2
  refine ⟨?_, ?_, ?_⟩
  · intro hle
    unfold convergeTick
    rw [if_pos hq]
    simp only []
    rw [if_neg (not_lt.mpr (by unfold particleDist at hle; exact hle))]
  · intro hgt
    unfold convergeTick
    rw [if_pos hq]
    simp only []
    rw [if_pos (by unfold particleDist at hgt; exact hgt)]
    unfold particleDist
    rfl
  · intro hx hy
    have h0 : particleDist pt = 0 := by
      unfold particleDist
      rw [← hx, ← hy]
      simp
    unfold convergeTick
    rw [if_pos hq]
    simp only []
    rw [if_neg (not_lt.mpr (by
      unfold particleDist at h0
      rw [h0]
      norm_num))]

/-- Witness for C2: a particle already at its target snaps and zeroes its
velocity, and a particle at distance 5 from its target gains the damped
attraction velocity `0.2112` on the x axis. -/
theorem convergeTick_physics_witness :
    convergeTick 0.5
        (Particle.mk 3 4 3 4 1 1 0 0 none none (PixelData.mk 0 0 0 255)) =
      Particle.mk 3 4 3 4 0 0 0 0 none none (PixelData.mk 0 0 0 255) ∧
    (convergeTick 0
        (Particle.mk 0 0 3 4 0 0 0 0 none none
          (PixelData.mk 0 0 0 255))).vx = 0.2112 := by
  constructor
  · exact (convergeTick_physics 0.5 _ (by norm_num)).2.2 rfl rfl
  · have h5 : particleDist
        (Particle.mk 0 0 3 4 0 0 0 0 none none (PixelData.mk 0 0 0 255))
        = 5 := by
      unfold particleDist
      norm_num
      rw [show ((25 : ℝ)) = 5 ^ 2 by norm_num]
      exact Real.sqrt_sq (by norm_num)
    have h := (convergeTick_physics 0 _ (by norm_num)).2.1
      (by rw [h5]; norm_num)
    rw [h]
    norm_num [h5]

/-- Helper: no tick ever changes the target of a particle. -/
theorem animateTick_target (w h p rx ry : ℝ) (pt : Particle) :
    (animateTick w h p rx ry pt).targetX = pt.targetX ∧
      (animateTick w h p rx ry pt).targetY = pt.targetY := by
  unfold animateTick convergeTick
  simp only []
  split_ifs <;> exact ⟨rfl, rfl⟩

/-- Helper: no run of ticks ever changes the target of a particle. -/
theorem runTicks_target (w h : ℝ) (ticks : List (ℝ × ℝ × ℝ)) :
    ∀ pt : Particle, (runTicks w h ticks pt).targetX = pt.targetX ∧
      (runTicks w h ticks pt).targetY = pt.targetY := by
  induction ticks with
  | nil => intro pt; exact ⟨rfl, rfl⟩
  | cons t ts ih =>
    intro pt
    unfold runTicks at ih ⊢
    rw [List.foldl_cons]
    constructor
    · rw [(ih _).1]
      exact (animateTick_target w h t.1 t.2.1 t.2.2 pt).1
    · rw [(ih _).2]
      exact (animateTick_target w h t.1 t.2.1 t.2.2 pt).2

/-- Claim C3: particles are created at their origin; every tick with
`p < 0.2` leaves the particle unchanged, so the rendered position stays
at the origin throughout the hold phase; every CONVERGE tick whose local
progress `(p - 0.4) / 0.6` reaches `0.95` forces the position to the
target, overriding the physics; hence any run whose final tick has
`p = 1` ends exactly at the target. -/
theorem particle_convergence_spec :
    (∀ (fromPts toPts : List PixelPosition),
      ∀ pr ∈ buildParticles fromPts toPts,
        pr.x = pr.originalX ∧ pr.y = pr.originalY) ∧
    (∀ (w h p rx ry : ℝ) (pt : Particle), p < 0.2 →
      animateTick w h p rx ry pt = pt) ∧
    (∀ (w h : ℝ) (ticks : List (ℝ × ℝ × ℝ)) (pt : Particle),
      (∀ t ∈ ticks, t.1 < 0.2) → runTicks w h ticks pt = pt) ∧
    (∀ (w h p rx ry : ℝ) (pt : Particle), 0.4 ≤ p →
      0.95 ≤ (p - 0.4) / (1 - 0.4) →
      (animateTick w h p rx ry pt).x = pt.targetX ∧
        (animateTick w h p rx ry pt).y = pt.targetY) ∧
    (∀ (w h rx ry : ℝ) (ticks : List (ℝ × ℝ × ℝ)) (pt : Particle),
      (runTicks w h (ticks ++ [(1, rx, ry)]) pt).x = pt.targetX ∧
        (runTicks w h (ticks ++ [(1, rx, ry)]) pt).y = pt.targetY) := by
  have hhold : ∀ (w h p rx ry : ℝ) (pt : Particle), p < 0.2 →
      animateTick w h p rx ry pt = pt := by
    intro w h p rx ry pt hp
    unfold animateTick
    rw [if_pos hp]
  have hlock : ∀ (w h p rx ry : ℝ) (pt : Particle), 0.4 ≤ p →
      0.95 ≤ (p - 0.4) / (1 - 0.4) →
      (animateTick w h p rx ry pt).x = pt.targetX ∧
        (animateTick w h p rx ry pt).y = pt.targetY := by
    intro w h p rx ry pt hp hq
    unfold animateTick
    rw [if_neg (not_lt.mpr (by linarith)), if_neg (not_lt.mpr hp)]
    unfold convergeTick
    rw [if_neg (not_lt.mpr hq)]
    exact ⟨rfl, rfl⟩
  refine ⟨?_, hhold, ?_, hlock, ?_⟩
  · intro fromPts toPts pr hpr
    obtain ⟨f, -, t, -, rfl⟩ := exists_of_mem_zipWith hpr
    exact ⟨rfl, rfl⟩
  · intro w h ticks
    induction ticks with
    | nil => intro pt hticks; rfl
    | cons t ts ih =>
      intro pt hticks
      unfold runTicks at ih ⊢
      rw [List.foldl_cons,
        hhold w h t.1 t.2.1 t.2.2 pt (hticks t (List.mem_cons_self t ts))]
      exact ih pt fun s hs => hticks s (List.mem_cons_of_mem t hs)
  · intro w h rx ry ticks pt
    unfold runTicks
    rw [List.foldl_append, List.foldl_cons, List.foldl_nil]
    have hfin := hlock w h 1 rx ry
      (List.foldl (fun s t => animateTick w h t.1 t.2.1 t.2.2 s) pt ticks)
      (by norm_num) (by norm_num)
    have htgt := runTicks_target w h ticks pt
    unfold runTicks at htgt
    exact ⟨hfin.1.trans htgt.1, hfin.2.trans htgt.2⟩

/-- Witness for C3: a concrete particle is unchanged by a hold-phase run,
is created at its origin, and a run ending with a tick at `p = 1` lands
exactly on the target. -/
theorem particle_convergence_spec_witness :
    (∀ pr ∈ buildParticles
        [PixelPosition.mk 1 2 0 (PixelData.mk 3 3 3 255)]
        [PixelPosition.mk 5 6 0 (PixelData.mk 4 4 4 255)],
      pr.x = pr.originalX ∧ pr.y = pr.originalY) ∧
    runTicks 100 100 [(0.1, 0.3, 0.7)]
      (Particle.mk 1 2 5 6 0 0 1 2 none none (PixelData.mk 3 3 3 255)) =
      Particle.mk 1 2 5 6 0 0 1 2 none none (PixelData.mk 3 3 3 255) ∧
    (runTicks 100 100 [(0.1, 0.3, 0.7), (1, 0.2, 0.9)]
        (Particle.mk 1 2 5 6 0 0 1 2 none none
          (PixelData.mk 3 3 3 255))).x = 5 := by
  refine ⟨particle_convergence_spec.1 _ _, ?_, ?_⟩
  · exact particle_convergence_spec.2.2.1 100 100 [(0.1, 0.3, 0.7)] _
      (by intro t ht; simp at ht; rw [ht]; norm_num)
  · exact (particle_convergence_spec.2.2.2.2 100 100 0.2 0.9
      [(0.1, 0.3, 0.7)] _).1

end Bahlil
